import Mathlib

/-!
Verification of `torch/ao/ns/_numeric_suite_fx.py` (FX numeric suite).

Shallow embedding of the probe (`OutputLogger`), the logger-info
aggregation (`_extract_logger_info_one_model`), the comparison step
(`extend_logger_results_with_comparison`) and the branch-construction
skeleton of `prepare_n_shadows_model`, together with theorems settling
the specification claims about them.
-/

/-! ## Tensors and Python values

`Tensor` abstracts a `torch.Tensor` payload: an opaque value plus its
`requires_grad` autograd flag.  `Tensor.detach` models `x.detach()`:
same value, detached from the autograd graph. -/

structure Tensor where
  data : Int
  requires_grad : Bool
deriving DecidableEq, Repr

def Tensor.detach (t : Tensor) : Tensor :=
  { data := t.data, requires_grad := false }

/-- Python runtime errors that the modelled code can raise. -/
inductive PyErr
  | typeError
  | attributeError
deriving DecidableEq, Repr

/-- A Python value as seen by `OutputLogger.forward`: a tensor, a tuple of
values, or an atomic non-tensor non-tuple object (modelled without a
`len`, like a number or a 0-dim payload).  `other` carries a tag only so
that distinct foreign objects exist. -/
inductive PyVal
  | tensor (t : Tensor)
  | tup (xs : List PyVal)
  | other (tag : Nat)

/-- `x.detach()` on an arbitrary Python value: succeeds on tensors,
raises `AttributeError` otherwise. -/
def pyDetach : PyVal → Except PyErr Tensor
  | PyVal.tensor t => Except.ok t.detach
  | _ => Except.error PyErr.attributeError

/-- `RNNReturnType = Tuple[torch.Tensor, Tuple[torch.Tensor, torch.Tensor]]`. -/
abbrev RNNReturnType := Tensor × (Tensor × Tensor)

/-! ## `OutputLogger`

All constructor-settable fields of the Python class plus its mutable
capture state (`stats`, `stats_rnn`) and the `enabled` flag. -/

structure OutputLogger where
  ref_node_name : String
  prev_node_name : String
  model_name : String
  ref_name : String
  prev_node_target_type : String
  ref_node_target_type : String
  results_type : String
  index_within_arg : Nat
  index_of_arg : Nat
  fqn : Option String
  qconfig_str : Option String
  enabled : Bool
  stats : List Tensor
  stats_rnn : List RNNReturnType
deriving DecidableEq, Repr

/-- `OutputLogger.forward` (lines 222-232 of the source):

```
if not self.enabled:
    return x
if isinstance(x, torch.Tensor):
    self.stats.append(x.detach())
elif isinstance(x, tuple) and len(x) == 2 and len(x[1]) == 2:
    new_res = (x[0].detach(), (x[1][0].detach(), x[1][1].detach()))
    self.stats_rnn.append(new_res)
return x
```

The state-mutating method is embedded as a function returning the
updated logger and the returned value, or the raised error.  A 2-tuple
whose second element has no `len` raises `TypeError` while the `elif`
condition is evaluated; a 2-tuple passing the length tests but holding a
non-tensor raises `AttributeError` from `.detach()`. -/
def OutputLogger.forward (lg : OutputLogger) (x : PyVal) :
    Except PyErr (OutputLogger × PyVal) :=
  if lg.enabled = false then Except.ok (lg, x)
  else
    match x with
    | PyVal.tensor t =>
        Except.ok ({ lg with stats := lg.stats ++ [t.detach] }, x)
    | PyVal.tup [x0, x1] =>
        match x1 with
        | PyVal.tup ys =>
            match ys with
            | [y0, y1] => do
                let d0 ← pyDetach x0
                let d1 ← pyDetach y0
                let d2 ← pyDetach y1
                Except.ok
                  ({ lg with stats_rnn := lg.stats_rnn ++ [(d0, (d1, d2))] }, x)
            | _ => Except.ok (lg, x)
        | _ => Except.error PyErr.typeError
    | PyVal.tup _ => Except.ok (lg, x)
    | PyVal.other _ => Except.ok (lg, x)

/-- Shapes that `forward` passes through silently without capturing:
everything that is not a tensor, not a 2-tuple whose second element is a
sized object, and not a structural RNN match. -/
def passThroughShape : PyVal → Bool
  | PyVal.tensor _ => false
  | PyVal.tup [_, x1] =>
      match x1 with
      | PyVal.tup ys => ys.length != 2
      | _ => false
  | PyVal.tup _ => true
  | PyVal.other _ => true

/-- The structural test of the `elif` branch: a 2-tuple whose second
element is a tuple of length 2 (tensor-ness of the components is not
part of the test). -/
def rnnStructMatch : PyVal → Bool
  | PyVal.tup [_, PyVal.tup [_, _]] => true
  | _ => false

def isTensorVal : PyVal → Bool
  | PyVal.tensor _ => true
  | _ => false

/-- Components of a structural RNN match are all tensors. -/
def rnnAllTensors : PyVal → Bool
  | PyVal.tup [x0, PyVal.tup [y0, y1]] =>
      isTensorVal x0 && isTensorVal y0 && isTensorVal y1
  | _ => false

def exceptOk {ε α : Type} : Except ε α → Bool
  | Except.ok _ => true
  | Except.error _ => false

/-- A concrete enabled logger used in counterexamples and witnesses. -/
def c1Logger : OutputLogger :=
  { ref_node_name := "op1", prev_node_name := "op1", model_name := "a",
    ref_name := "sub0", prev_node_target_type := "T",
    ref_node_target_type := "T", results_type := "node_output",
    index_within_arg := 0, index_of_arg := 0, fqn := none,
    qconfig_str := some "", enabled := true, stats := [], stats_rnn := [] }

/-- A 2-tuple whose second element is a 2-tuple, but with a non-tensor
component: neither a single tensor nor the paired-tensor shape, so the
claim requires it to be passed through without capture and without
error. -/
def c1BadVal : PyVal :=
  PyVal.tup [PyVal.tensor ⟨0, false⟩,
             PyVal.tup [PyVal.other 0, PyVal.tensor ⟨1, false⟩]]

/-! ## Association-list model of Python dicts

Python dicts are insertion-ordered; they are modelled as association
lists.  `dset` replaces the value of an existing key in place and
appends a fresh key at the end, exactly like Python assignment. -/

abbrev Dict (α : Type) := List (String × α)

def dget {α : Type} (d : Dict α) (k : String) : Option α :=
  (d.find? (fun p => p.1 == k)).map (fun p => p.2)

def dset {α : Type} (d : Dict α) (k : String) (v : α) : Dict α :=
  if (dget d k).isSome then
    d.map (fun p => if p.1 == k then (k, v) else p)
  else d ++ [(k, v)]

/-! ## Captured statistics and result records -/

/-- The `values` field of a result record: `stats` (plain tensors) or
`stats_rnn` (paired recurrent outputs), as selected at lines 502-504. -/
inductive CapStats
  | plain (ts : List Tensor)
  | rnn (rs : List RNNReturnType)
deriving DecidableEq, Repr

/-- One element of a captured value sequence, as handed to a
caller-supplied comparison function. -/
inductive CapVal
  | t (x : Tensor)
  | r (x : RNNReturnType)
deriving DecidableEq, Repr

def CapStats.toList : CapStats → List CapVal
  | CapStats.plain ts => ts.map CapVal.t
  | CapStats.rnn rs => rs.map CapVal.r

/-- One record of the results structure (the dict literal at lines
505-516).  `cmps` models the extra keys later written by
`extend_logger_results_with_comparison` (empty = no such key yet). -/
structure NSRecord where
  type : String
  values : CapStats
  ref_node_name : String
  ref_node_target_type : String
  prev_node_name : String
  prev_node_target_type : String
  index_within_arg : Nat
  index_of_arg : Nat
  fqn : Option String
  qconfig_str : Option String
  cmps : Dict (List Tensor)
deriving DecidableEq, Repr

/-- match-name → result-type → model-name → list of records
(`NSResultsType`). -/
abbrev ModelToResults := Dict (List NSRecord)
abbrev TypeToResults := Dict ModelToResults
abbrev NSResults := Dict TypeToResults

def dget3 (res : NSResults) (k t m : String) : Option (List NSRecord) :=
  (dget res k).bind (fun tr => (dget tr t).bind (fun mm => dget mm m))

/-- The record built for one logger (lines 505-516). -/
def mkRecord (mod : OutputLogger) : NSRecord :=
  { type := mod.results_type
    values := if mod.stats_rnn.length > 0 then CapStats.rnn mod.stats_rnn
              else CapStats.plain mod.stats
    ref_node_name := mod.ref_node_name
    ref_node_target_type := mod.ref_node_target_type
    prev_node_name := mod.prev_node_name
    prev_node_target_type := mod.prev_node_target_type
    index_within_arg := mod.index_within_arg
    index_of_arg := mod.index_of_arg
    fqn := mod.fqn
    qconfig_str := mod.qconfig_str
    cmps := [] }

/-! ## The sort at lines 517-521

Python sorts by the **string** `f"{index_of_arg}:{index_within_arg}"`.
`charListLe` is code-point lexicographic string comparison (Python's
`<=` on `str`); `pySortByKey` is a stable sort by a string key, matching
`list.sort(key=...)`. -/

def charListLe : List Char → List Char → Bool
  | [], _ => true
  | _ :: _, [] => false
  | a :: as, b :: bs =>
      if a.toNat < b.toNat then true
      else if b.toNat < a.toNat then false
      else charListLe as bs

def strLeB (a b : String) : Bool := charListLe a.data b.data

/-- The sort key `f"{res['index_of_arg']}:{res['index_within_arg']}"`. -/
def recKey (r : NSRecord) : String :=
  toString r.index_of_arg ++ ":" ++ toString r.index_within_arg

/-- Insert behind every element whose key is `<=` the new key (keeps the
insertion stable, like Python's stable sort). -/
def insertSortedByKey {α : Type} (key : α → String) (x : α) : List α → List α
  | [] => [x]
  | y :: ys =>
      if strLeB (key y) (key x) then y :: insertSortedByKey key x ys
      else x :: y :: ys

def pySortByKey {α : Type} (key : α → String) (l : List α) : List α :=
  l.foldl (fun acc x => insertSortedByKey key x acc) []

/-- The claimed ordering: ascending by the numeric pair
`(index_of_arg, index_within_arg)`. -/
def sortedByNumPair (l : List NSRecord) : Prop :=
  l.Chain' (fun a b =>
    a.index_of_arg < b.index_of_arg ∨
    (a.index_of_arg = b.index_of_arg ∧ a.index_within_arg ≤ b.index_within_arg))

/-- The ordering the code actually establishes: ascending by the string
key `recKey`. -/
def SortedRecs (l : List NSRecord) : Prop :=
  l.Chain' (fun a b => strLeB (recKey a) (recKey b) = true)

def SortedMM (mm : ModelToResults) : Prop := ∀ p ∈ mm, SortedRecs p.2

def SortedTR (tr : TypeToResults) : Prop := ∀ p ∈ tr, SortedMM p.2

def SortedRes (res : NSResults) : Prop := ∀ p ∈ res, SortedTR p.2

/-! ## `_extract_logger_info_one_model` (lines 477-521)

The module traversal is modelled by the list of `OutputLogger` instances
found, in traversal order (the `isinstance` filter keeps exactly those).
The failing `assert` at lines 496-497 becomes `Except.error`. -/

def process_logger (results : NSResults) (mod : OutputLogger) :
    Except String NSResults :=
  let key := mod.ref_name
  -- if key not in results: results[key] = {}
  let results1 := if (dget results key).isSome then results else dset results key []
  let lvl1 := (dget results1 key).getD []
  -- assert mod.model_name not in results[key]  (note: the *results-type* level)
  if (dget lvl1 mod.model_name).isSome then
    Except.error (mod.model_name ++ " is already present in results")
  else
    -- if mod.results_type not in results[key]: ... = {}
    let lvl1a := if (dget lvl1 mod.results_type).isSome then lvl1
                 else dset lvl1 mod.results_type []
    let lvl2 := (dget lvl1a mod.results_type).getD []
    -- if mod.model_name not in results[key][mod.results_type]: ... = []
    let lvl2a := if (dget lvl2 mod.model_name).isSome then lvl2
                 else dset lvl2 mod.model_name []
    let lst := (dget lvl2a mod.model_name).getD []
    -- append the record, then keep the list sorted by the string key
    let sorted := pySortByKey recKey (lst ++ [mkRecord mod])
    Except.ok (dset results1 key
      (dset lvl1a mod.results_type (dset lvl2a mod.model_name sorted)))

def extract_logger_info_one_model :
    List OutputLogger → NSResults → Except String NSResults
  | [], results => Except.ok results
  | mod :: mods, results =>
      match process_logger results mod with
      | Except.error e => Except.error e
      | Except.ok results1 => extract_logger_info_one_model mods results1

/-! Concrete loggers for the aggregation claims. -/

/-- Same group as `c2LoggerB` but `index_of_arg = 2`. -/
def c2LoggerA : OutputLogger :=
  { c1Logger with index_of_arg := 2, prev_node_name := "opA",
                  stats := [⟨1, false⟩] }

/-- Same group as `c2LoggerA` but `index_of_arg = 10`: the string keys
are `"2:0"` and `"10:0"`, which sort in the opposite of numeric order. -/
def c2LoggerB : OutputLogger :=
  { c1Logger with index_of_arg := 10, prev_node_name := "opB",
                  stats := [⟨2, false⟩] }

def c2WLogger : OutputLogger := { c1Logger with index_of_arg := 1 }

/-- Two distinct probes with the same match-name, result-type and
owning-model-name. -/
def c3Logger1 : OutputLogger :=
  { c1Logger with prev_node_name := "op1", stats := [⟨1, false⟩] }

def c3Logger2 : OutputLogger :=
  { c1Logger with prev_node_name := "op2", stats := [⟨2, false⟩] }

/-- A logger with both plain and recurrent captures. -/
def c10Mod : OutputLogger :=
  { c1Logger with stats := [⟨9, false⟩],
                  stats_rnn := [(⟨1, false⟩, (⟨2, false⟩, ⟨3, false⟩))] }

/-! ## `extend_logger_results_with_comparison` (lines 653-705)

The in-place enrichment is embedded as a function from the results
structure to the updated structure; the failing `assert`s become
`Except.error`. -/

/-- The inner search for the `result_1` whose
`(index_within_arg, index_of_arg)` matches `result_2` (lines 687-697):
first match in list order. -/
def findMatch (results_1 : List NSRecord) (iwa ioa : Nat) : Option NSRecord :=
  results_1.find? (fun r => r.index_within_arg == iwa && r.index_of_arg == ioa)

/-- Body of the `for result_2 in results_2` loop (lines 684-705): find
the positional counterpart (assert it exists), zip the two captured
value sequences element-wise, apply the comparison function, and store
the list under `comparison_name`. -/
def compareResult (comparison_fn : CapVal → CapVal → Tensor)
    (comparison_name : String) (results_1 : List NSRecord)
    (result_2 : NSRecord) : Except String NSRecord :=
  match findMatch results_1 result_2.index_within_arg result_2.index_of_arg with
  | none => Except.error "result_1 is None"
  | some result_1 =>
      Except.ok { result_2 with
        cmps := dset result_2.cmps comparison_name
          (List.zipWith comparison_fn
            (CapStats.toList result_1.values) (CapStats.toList result_2.values)) }

def compareAll (comparison_fn : CapVal → CapVal → Tensor)
    (comparison_name : String) (results_1 : List NSRecord) :
    List NSRecord → Except String (List NSRecord)
  | [] => Except.ok []
  | r2 :: rest =>
      match compareResult comparison_fn comparison_name results_1 r2 with
      | Except.error e => Except.error e
      | Except.ok r2' =>
          match compareAll comparison_fn comparison_name results_1 rest with
          | Except.error e => Except.error e
          | Except.ok rest' => Except.ok (r2' :: rest')

/-- One match-name/result-type group (lines 676-705): assert both model
names are present, then enrich every model-2 record. -/
def extendModelResults (comparison_fn : CapVal → CapVal → Tensor)
    (comparison_name : String) (model_name_1 model_name_2 : String)
    (mm : ModelToResults) : Except String ModelToResults :=
  match dget mm model_name_1 with
  | none => Except.error (model_name_1 ++ " not found in results")
  | some results_1 =>
      match dget mm model_name_2 with
      | none => Except.error (model_name_2 ++ " not found in results")
      | some results_2 =>
          match compareAll comparison_fn comparison_name results_1 results_2 with
          | Except.error e => Except.error e
          | Except.ok results_2' =>
              Except.ok (dset mm model_name_2 results_2')

def extendTypeResults (comparison_fn : CapVal → CapVal → Tensor)
    (comparison_name : String) (model_name_1 model_name_2 : String) :
    TypeToResults → Except String TypeToResults
  | [] => Except.ok []
  | (rt, mm) :: rest =>
      match extendModelResults comparison_fn comparison_name
          model_name_1 model_name_2 mm with
      | Except.error e => Except.error e
      | Except.ok mm' =>
          match extendTypeResults comparison_fn comparison_name
              model_name_1 model_name_2 rest with
          | Except.error e => Except.error e
          | Except.ok rest' => Except.ok ((rt, mm') :: rest')

def extend_logger_results_with_comparison (results : NSResults)
    (model_name_1 model_name_2 : String)
    (comparison_fn : CapVal → CapVal → Tensor) (comparison_name : String) :
    Except String NSResults :=
  match results with
  | [] => Except.ok []
  | (key, tr) :: rest =>
      match extendTypeResults comparison_fn comparison_name
          model_name_1 model_name_2 tr with
      | Except.error e => Except.error e
      | Except.ok tr' =>
          match extend_logger_results_with_comparison rest
              model_name_1 model_name_2 comparison_fn comparison_name with
          | Except.error e => Except.error e
          | Except.ok rest' => Except.ok ((key, tr') :: rest')

/-- Success condition for one group: both model names present and every
model-2 record has a positional counterpart among model 1's records. -/
def groupOkB (model_name_1 model_name_2 : String) (mm : ModelToResults) : Bool :=
  match dget mm model_name_1, dget mm model_name_2 with
  | some l1, some l2 =>
      l2.all (fun r2 => (findMatch l1 r2.index_within_arg r2.index_of_arg).isSome)
  | _, _ => false

/-! Concrete data for the comparison claims. -/

def recA : NSRecord :=
  { type := "node_output", values := CapStats.plain [⟨3, false⟩],
    ref_node_name := "op1", ref_node_target_type := "T",
    prev_node_name := "op1", prev_node_target_type := "T",
    index_within_arg := 0, index_of_arg := 0, fqn := some "fc1",
    qconfig_str := some "", cmps := [] }

def recB : NSRecord := { recA with values := CapStats.plain [⟨5, false⟩] }

def cmpFn : CapVal → CapVal → Tensor := fun v1 v2 =>
  match v1, v2 with
  | CapVal.t a, CapVal.t b => ⟨a.data - b.data, false⟩
  | _, _ => ⟨0, false⟩

def c56Res : NSResults :=
  [("sub0", [("node_output", [("a", [recA]), ("b", [recB])])])]

def recB' : NSRecord := { recB with cmps := [("cmp", [⟨-2, false⟩])] }

def c56Res' : NSResults :=
  [("sub0", [("node_output", [("a", [recA]), ("b", [recB'])])])]

/-! ## `prepare_n_shadows_model` (lines 707-912)

The sweep builder is embedded as a state machine over the carrier
graph's derived-name attribute set and the list of inserted probe /
wrapper branches.  Collaborators outside this file's source are
abstract inputs: `subgraphs_dedup` (the output of `_get_dedup_subgraphs`
over `find_matches`), and one node-name → per-node-config map per
supplied `QConfigMapping` (the output of `generate_qconfig_map`). -/

/-- Opaque payload of a non-null per-node quantization config. -/
abbrev QConfig := String

/-- Modelled from the spec: `_get_attr_name` and `_get_attr_wrapper_name`
(imported from `torch.ao.ns.fx.n_shadows_utils`, not part of this file's
source) derive a deterministic attribute name from
`(subgraph_idx, subgraph_candidate_idx)`; logger and wrapper names are
two disjoint families, injective in the index pair. -/
inductive AttrName
  | logger (subgraph_idx subgraph_candidate_idx : Nat)
  | wrapper (subgraph_idx subgraph_candidate_idx : Nat)
deriving DecidableEq, Repr

def AttrName.sgIdx : AttrName → Nat
  | AttrName.logger i _ => i
  | AttrName.wrapper i _ => i

inductive BranchKind
  | origLogger
  | shadowWrapper
deriving DecidableEq, Repr

/-- One probed branch spliced into the carrier graph: the floating-point
logger of candidate 0, or a prepared shadow wrapper for a candidate
config. -/
structure Insertion where
  subgraphIdx : Nat
  candidateIdx : Nat
  kind : BranchKind
deriving DecidableEq, Repr

def Insertion.attrName (ins : Insertion) : AttrName :=
  match ins.kind with
  | BranchKind.origLogger => AttrName.logger ins.subgraphIdx ins.candidateIdx
  | BranchKind.shadowWrapper => AttrName.wrapper ins.subgraphIdx ins.candidateIdx

/-- The upstream input of a subgraph's first node
(`get_normalized_nth_input(first_node, mt, 0)`): a single node, a list
of nodes or a tuple of nodes, each node carrying an optional cached
example value (`traced_result`, its payload abstracted to `Nat`). -/
inductive PrevInput
  | singleNode (traced_result : Option Nat)
  | listOfNodes (traced_results : List (Option Nat))
  | tupleOfNodes (traced_results : List (Option Nat))
deriving DecidableEq, Repr

structure GNode where
  name : String
  prevInput : PrevInput
deriving DecidableEq, Repr

/-- An entry of `nodes_in_this_subgraph`: a graph node, or a non-node
value (tuple etc., line 787). -/
inductive SubNode
  | node (g : GNode)
  | nonNode
deriving DecidableEq, Repr

structure SubgraphEntry where
  match_name : String
  nodes : List SubNode
deriving DecidableEq, Repr

/-- Mutable state of the construction: the derived-name attributes held
by the carrier module `mt`, the branches inserted so far, and the
diagnostics printed. -/
structure PrepState where
  attrs : List AttrName
  inserts : List Insertion
  diags : List String
deriving DecidableEq, Repr

inductive PrepErr
  | indexError
  | attributeError
  | assertionError
deriving DecidableEq, Repr

/-- Outcome of computing `example_inputs` (lines 798-815): a usable
value, no value (single upstream node without `traced_result`, which is
the guarded diagnostic path), or an `AttributeError` (list of upstream
nodes where some node lacks `traced_result` — unguarded).  The tuple
case builds a generator expression that is not evaluated here. -/
inductive ExampleRes
  | ok
  | noExample
  | raise
deriving DecidableEq, Repr

def getExampleInputs : PrevInput → ExampleRes
  | PrevInput.singleNode (some _) => ExampleRes.ok
  | PrevInput.singleNode none => ExampleRes.noExample
  | PrevInput.listOfNodes xs =>
      if xs.all Option.isSome then ExampleRes.ok else ExampleRes.raise
  | PrevInput.tupleOfNodes _ => ExampleRes.ok

def hasNonNode (l : List SubNode) : Bool :=
  l.any (fun n => match n with | SubNode.nonNode => true | _ => false)

/-- `first_node = nodes_in_this_subgraph[0]` (only reached when the
non-node check passed; `none` on an empty list models the
`IndexError`). -/
def firstNode? : List SubNode → Option GNode
  | SubNode.node g :: _ => some g
  | _ => none

/-- The diagnostic printed at lines 812-814 (with the node's name
standing in for `first_node.format_node()`). -/
def skipMsg (g : GNode) : String :=
  "unable to get example input for node " ++ g.name ++ ", skipping"

/-- Candidate 0 (lines 819-832): keep the floating-point subgraph, add a
logger attribute (`assert not hasattr(mt, attr_name)`) and a call to it. -/
def floatBranchStep (subgraph_idx : Nat) (st : PrepState) :
    Except PrepErr PrepState :=
  let attr_name := AttrName.logger subgraph_idx 0
  if attr_name ∈ st.attrs then Except.error PrepErr.assertionError
  else Except.ok { st with
    attrs := st.attrs ++ [attr_name],
    inserts := st.inserts ++ [⟨subgraph_idx, 0, BranchKind.origLogger⟩] }

/-- Candidates `1 .. len(qconfig_mappings)` of the
`for subgraph_candidate_idx in range(len(qconfig_mappings) + 1)` loop
(lines 834-906), walked in order with `j = position + 1`: skip a
candidate whose per-node config for the first node is null, otherwise
build and attach the prepared wrapper
(`assert not hasattr(mt, attr_name)`). -/
def wrapperLoop (subgraph_idx : Nat) (first_node : GNode) :
    PrepState → List (String → Option QConfig) → Nat →
    Except PrepErr PrepState
  | st, [], _ => Except.ok st
  | st, qmap :: qmaps, j =>
      match qmap first_node.name with
      | none => wrapperLoop subgraph_idx first_node st qmaps (j + 1)
      | some _ =>
          let attr_name := AttrName.wrapper subgraph_idx j
          if attr_name ∈ st.attrs then Except.error PrepErr.assertionError
          else wrapperLoop subgraph_idx first_node
            { st with attrs := st.attrs ++ [attr_name],
                      inserts := st.inserts ++
                        [⟨subgraph_idx, j, BranchKind.shadowWrapper⟩] }
            qmaps (j + 1)

def candidateLoop (qmaps : List (String → Option QConfig))
    (subgraph_idx : Nat) (first_node : GNode) (st : PrepState) :
    Except PrepErr PrepState :=
  match floatBranchStep subgraph_idx st with
  | Except.error e => Except.error e
  | Except.ok st1 => wrapperLoop subgraph_idx first_node st1 qmaps 1

/-- One iteration of the subgraph loop (lines 778-906). -/
def processSubgraph (qmaps : List (String → Option QConfig))
    (st : PrepState) (subgraph_idx : Nat) (sg : SubgraphEntry) :
    Except PrepErr PrepState :=
  if hasNonNode sg.nodes then Except.ok st
  else
    match firstNode? sg.nodes with
    | none => Except.error PrepErr.indexError
    | some first_node =>
        match getExampleInputs first_node.prevInput with
        | ExampleRes.raise => Except.error PrepErr.attributeError
        | ExampleRes.noExample =>
            Except.ok { st with diags := st.diags ++ [skipMsg first_node] }
        | ExampleRes.ok => candidateLoop qmaps subgraph_idx first_node st

def prepareLoop (qmaps : List (String → Option QConfig)) :
    Nat → List SubgraphEntry → PrepState → Except PrepErr PrepState
  | _, [], st => Except.ok st
  | idx, sg :: rest, st =>
      match processSubgraph qmaps st idx sg with
      | Except.error e => Except.error e
      | Except.ok st' => prepareLoop qmaps (idx + 1) rest st'

def prepare_n_shadows_model (subgraphs_dedup : List SubgraphEntry)
    (qmaps : List (String → Option QConfig)) (st : PrepState) :
    Except PrepErr PrepState :=
  prepareLoop qmaps 0 subgraphs_dedup st

/-- The insertions a successful run makes for candidates `>= 1` of one
subgraph: one shadow wrapper per config whose per-node entry for the
first node is non-null, with consecutive candidate indices. -/
def wrapperBlock (subgraph_idx : Nat) (node_name : String) :
    List (String → Option QConfig) → Nat → List Insertion
  | [], _ => []
  | qmap :: qmaps, j =>
      (if (qmap node_name).isSome
        then [⟨subgraph_idx, j, BranchKind.shadowWrapper⟩] else [])
      ++ wrapperBlock subgraph_idx node_name qmaps (j + 1)

/-- All insertions a successful run makes for one subgraph with first
node `g`. -/
def sgBlockCore (qmaps : List (String → Option QConfig)) (idx : Nat)
    (g : GNode) : List Insertion :=
  match getExampleInputs g.prevInput with
  | ExampleRes.ok =>
      ⟨idx, 0, BranchKind.origLogger⟩ :: wrapperBlock idx g.name qmaps 1
  | _ => []

/-- All insertions a successful run makes for one subgraph. -/
def sgBlock (qmaps : List (String → Option QConfig)) (idx : Nat)
    (sg : SubgraphEntry) : List Insertion :=
  if hasNonNode sg.nodes then []
  else
    match firstNode? sg.nodes with
    | none => []
    | some g => sgBlockCore qmaps idx g

/-- All insertions of a run over a subgraph list starting at `idx`. -/
def blocksFrom (qmaps : List (String → Option QConfig)) :
    Nat → List SubgraphEntry → List Insertion
  | _, [] => []
  | idx, sg :: rest => sgBlock qmaps idx sg ++ blocksFrom qmaps (idx + 1) rest

/-- Number of supplied config candidates whose resolved per-node config
for the named node is null (these candidates are skipped). -/
def countNullConfigs (name : String) : List (String → Option QConfig) → Nat
  | [] => 0
  | qmap :: qmaps =>
      (if (qmap name).isNone then 1 else 0) + countNullConfigs name qmaps

/-! Concrete data for the sweep claims. -/

def cGNode : GNode := { name := "op0", prevInput := PrevInput.singleNode (some 7) }

def cSubgraph : SubgraphEntry :=
  { match_name := "subgraph_0", nodes := [SubNode.node cGNode] }

/-- Two candidate configs, the second resolving to a null per-node
config for every node. -/
def cQmaps : List (String → Option QConfig) :=
  [fun _ => some "q0", fun _ => none]

def cStart : PrepState := { attrs := [], inserts := [], diags := [] }

def c7St : PrepState :=
  { attrs := [AttrName.logger 0 0, AttrName.wrapper 0 1],
    inserts := [⟨0, 0, BranchKind.origLogger⟩, ⟨0, 1, BranchKind.shadowWrapper⟩],
    diags := [] }

def c9GNode : GNode := { name := "op9", prevInput := PrevInput.singleNode none }

def c9Subgraph : SubgraphEntry :=
  { match_name := "subgraph_9", nodes := [SubNode.node c9GNode] }

/-- C1 counterexample: `c1BadVal` is not a tensor and not a 2-tuple whose
second element is a 2-tuple **of tensors**, so per the claim it is an
"other shape" that must be passed through without error; instead
`forward` enters the structural `elif` branch and raises
`AttributeError` from `x[1][0].detach()`. -/
theorem c1_counterexample :
    c1Logger.enabled = true ∧
    isTensorVal c1BadVal = false ∧
    rnnAllTensors c1BadVal = false ∧
    OutputLogger.forward c1Logger c1BadVal = Except.error PyErr.attributeError :=
  ⟨rfl, rfl, rfl, rfl⟩

/-- C1 (amended): for an enabled logger, `forward` returns its input
unchanged and (1) appends a detached snapshot of a tensor input to
`stats`; (2) appends a detached snapshot to `stats_rnn` when the input
is a 2-tuple whose second element is a 2-tuple and all three captured
components are tensors; (3) passes every value that is neither a tensor
nor a 2-tuple-with-sized-second-element structural match through without
capture and without error; but (4) a structural match whose components
are not all tensors raises instead of passing through. -/
theorem c1_amended (lg : OutputLogger) (h : lg.enabled = true) :
    (∀ t, OutputLogger.forward lg (PyVal.tensor t) =
        Except.ok ({ lg with stats := lg.stats ++ [t.detach] }, PyVal.tensor t)) ∧
    (∀ a b c,
        OutputLogger.forward lg
            (PyVal.tup [PyVal.tensor a, PyVal.tup [PyVal.tensor b, PyVal.tensor c]]) =
          Except.ok
            ({ lg with stats_rnn := lg.stats_rnn ++ [(a.detach, (b.detach, c.detach))] },
             PyVal.tup [PyVal.tensor a, PyVal.tup [PyVal.tensor b, PyVal.tensor c]])) ∧
    (∀ x, passThroughShape x = true →
        OutputLogger.forward lg x = Except.ok (lg, x)) ∧
    (∀ x, rnnStructMatch x = true → rnnAllTensors x = false →
        exceptOk (OutputLogger.forward lg x) = false) := by
  refine ⟨?_, ?_, ?_, ?_⟩
  · intro t
    simp [OutputLogger.forward, h]
  · intro a b c
    simp [OutputLogger.forward, h, pyDetach, Bind.bind, Except.bind]
  · intro x hx
    match x with
    | PyVal.tensor t => simp [passThroughShape] at hx
    | PyVal.other tag => simp [OutputLogger.forward, h]
    | PyVal.tup [] => simp [OutputLogger.forward, h]
    | PyVal.tup [x0] => simp [OutputLogger.forward, h]
    | PyVal.tup [x0, x1] =>
        match x1 with
        | PyVal.tensor t => simp [passThroughShape] at hx
        | PyVal.other tag => simp [passThroughShape] at hx
        | PyVal.tup [] => simp [OutputLogger.forward, h]
        | PyVal.tup [y0] => simp [OutputLogger.forward, h]
        | PyVal.tup [y0, y1] => simp [passThroughShape] at hx
        | PyVal.tup (y0 :: y1 :: y2 :: ys) => simp [OutputLogger.forward, h]
    | PyVal.tup (x0 :: x1 :: x2 :: xs) => simp [OutputLogger.forward, h]
  · intro x hs ht
    match x with
    | PyVal.tup [x0, PyVal.tup [y0, y1]] =>
        simp [rnnAllTensors] at ht
        match x0 with
        | PyVal.tensor t0 =>
            match y0 with
            | PyVal.tensor t1 =>
                match y1 with
                | PyVal.tensor t2 => simp [isTensorVal] at ht
                | PyVal.tup zs =>
                    simp [OutputLogger.forward, h, pyDetach, exceptOk, Bind.bind, Except.bind]
                | PyVal.other tag =>
                    simp [OutputLogger.forward, h, pyDetach, exceptOk, Bind.bind, Except.bind]
            | PyVal.tup zs =>
                simp [OutputLogger.forward, h, pyDetach, exceptOk, Bind.bind, Except.bind]
            | PyVal.other tag =>
                simp [OutputLogger.forward, h, pyDetach, exceptOk, Bind.bind, Except.bind]
        | PyVal.tup zs =>
            simp [OutputLogger.forward, h, pyDetach, exceptOk, Bind.bind, Except.bind]
        | PyVal.other tag =>
            simp [OutputLogger.forward, h, pyDetach, exceptOk, Bind.bind, Except.bind]
    | PyVal.tensor t => simp [rnnStructMatch] at hs
    | PyVal.other tag => simp [rnnStructMatch] at hs
    | PyVal.tup [] => simp [rnnStructMatch] at hs
    | PyVal.tup [x0] => simp [rnnStructMatch] at hs
    | PyVal.tup [x0, PyVal.tensor t] => simp [rnnStructMatch] at hs
    | PyVal.tup [x0, PyVal.other tag] => simp [rnnStructMatch] at hs
    | PyVal.tup [x0, PyVal.tup []] => simp [rnnStructMatch] at hs
    | PyVal.tup [x0, PyVal.tup [y0]] => simp [rnnStructMatch] at hs
    | PyVal.tup [x0, PyVal.tup (y0 :: y1 :: y2 :: ys)] => simp [rnnStructMatch] at hs
    | PyVal.tup (x0 :: x1 :: x2 :: xs) => simp [rnnStructMatch] at hs

/-- Witness for `c1_amended` at a concrete enabled logger and tensor. -/
theorem c1_amended_witness :
    c1Logger.enabled = true ∧
    OutputLogger.forward c1Logger (PyVal.tensor ⟨5, true⟩) =
      Except.ok ({ c1Logger with stats := c1Logger.stats ++ [Tensor.detach ⟨5, true⟩] },
                 PyVal.tensor ⟨5, true⟩) :=
  ⟨rfl, (c1_amended c1Logger rfl).1 ⟨5, true⟩⟩

/-- C4: with `enabled = false`, `forward` is a true no-op — it returns
its input unchanged and the logger state (including `stats` and
`stats_rnn`) is identical before and after the call, for every input. -/
theorem c4_disabled_noop (lg : OutputLogger) (x : PyVal)
    (h : lg.enabled = false) :
    OutputLogger.forward lg x = Except.ok (lg, x) := by
  simp [OutputLogger.forward, h]

/-- Witness for `c4_disabled_noop` on a concrete disabled logger. -/
theorem c4_disabled_noop_witness :
    ({ c1Logger with enabled := false } : OutputLogger).enabled = false ∧
    OutputLogger.forward { c1Logger with enabled := false } c1BadVal =
      Except.ok ({ c1Logger with enabled := false }, c1BadVal) :=
  ⟨rfl, c4_disabled_noop { c1Logger with enabled := false } c1BadVal rfl⟩

/-! ## Dictionary lemmas -/

theorem dget_mem {α : Type} {d : Dict α} {k : String} {v : α}
    (h : dget d k = some v) : (k, v) ∈ d := by
  unfold dget at h
  cases hf : d.find? (fun p => p.1 == k) with
  | none => rw [hf] at h; simp at h
  | some p =>
      rw [hf] at h
      simp at h
      have hm := List.mem_of_find?_eq_some hf
      have hp := List.find?_some hf
      simp at hp
      have : p = (k, v) := by
        cases p with
        | mk a b => simp at hp h; simp [hp, h]
      rw [← this]; exact hm

theorem mem_dset {α : Type} {d : Dict α} {k : String} {v : α} {p : String × α}
    (h : p ∈ dset d k v) : p = (k, v) ∨ p ∈ d := by
  unfold dset at h
  split at h
  · rw [List.mem_map] at h
    obtain ⟨q, hq, hfq⟩ := h
    by_cases hk : q.1 == k
    · left; rw [if_pos hk] at hfq; exact hfq.symm
    · right; rw [if_neg hk] at hfq; rw [← hfq]; exact hq
  · rw [List.mem_append] at h
    cases h with
    | inl h => right; exact h
    | inr h => left; simpa using h

theorem dget_dset_self {α : Type} (d : Dict α) (k : String) (v : α) :
    dget (dset d k v) k = some v := by
  unfold dset
  split
  · rename_i hs
    induction d with
    | nil => simp [dget] at hs
    | cons x xs ih =>
        by_cases hx : x.1 == k
        · simp [dget, List.find?, hx]
        · have hs' : (dget xs k).isSome := by
            simpa [dget, List.find?, hx] using hs
          simpa [dget, List.find?, hx] using ih hs'
  · induction d with
    | nil => simp [dget, List.find?]
    | cons x xs ih =>
        rename_i hs
        by_cases hx : x.1 == k
        · exfalso; apply hs; simp [dget, List.find?, hx]
        · have hs' : ¬ (dget xs k).isSome := by
            intro hc; apply hs; simpa [dget, List.find?, hx] using hc
          simpa [dget, List.find?, hx] using ih hs'

/-! ## Lexicographic string order lemmas -/

theorem charListLe_total (as bs : List Char) :
    charListLe as bs = true ∨ charListLe bs as = true := by
  induction as generalizing bs with
  | nil => left; rfl
  | cons a as ih =>
      cases bs with
      | nil => right; rfl
      | cons b bs =>
          rcases Nat.lt_trichotomy a.toNat b.toNat with h | h | h
          · left; simp [charListLe, h]
          · have h1 : ¬ a.toNat < b.toNat := by omega
            have h2 : ¬ b.toNat < a.toNat := by omega
            rcases ih bs with hh | hh
            · left; simp [charListLe, h1, h2, hh]
            · right; simp [charListLe, h1, h2, hh]
          · right; simp [charListLe, h]

theorem strLeB_total (a b : String) : strLeB a b = true ∨ strLeB b a = true :=
  charListLe_total a.data b.data

theorem strLeB_of_not (a b : String) (h : ¬ strLeB a b = true) :
    strLeB b a = true := by
  rcases strLeB_total a b with hh | hh
  · exact absurd hh h
  · exact hh

/-! ## Stable insertion-sort lemmas -/

theorem head?_insertSortedByKey {α : Type} (key : α → String) (x : α)
    (l : List α) (z : α) (h : z ∈ (insertSortedByKey key x l).head?) :
    z = x ∨ z ∈ l.head? := by
  cases l with
  | nil => simp [insertSortedByKey] at h; left; exact h.symm
  | cons y ys =>
      unfold insertSortedByKey at h
      split at h
      · right; simpa using h
      · left
        simp at h
        exact h.symm

theorem chain'_insertSortedByKey {α : Type} (key : α → String) (x : α)
    (l : List α)
    (h : l.Chain' (fun a b => strLeB (key a) (key b) = true)) :
    (insertSortedByKey key x l).Chain'
      (fun a b => strLeB (key a) (key b) = true) := by
  induction l with
  | nil => simp [insertSortedByKey]
  | cons y ys ih =>
      rw [List.chain'_cons'] at h
      unfold insertSortedByKey
      split
      · rename_i hc
        rw [List.chain'_cons']
        refine ⟨?_, ih h.2⟩
        intro z hz
        rcases head?_insertSortedByKey key x ys z hz with hzx | hzy
        · rw [hzx]; exact hc
        · exact h.1 z hzy
      · rename_i hc
        rw [List.chain'_cons']
        refine ⟨?_, ?_⟩
        · intro z hz
          simp at hz
          rw [← hz]
          exact strLeB_of_not _ _ hc
        · rw [List.chain'_cons']
          exact h

theorem chain'_pySortByKey {α : Type} (key : α → String) (l : List α) :
    (pySortByKey key l).Chain' (fun a b => strLeB (key a) (key b) = true) := by
  unfold pySortByKey
  suffices hgen : ∀ acc, acc.Chain' (fun a b => strLeB (key a) (key b) = true) →
      (l.foldl (fun acc x => insertSortedByKey key x acc) acc).Chain'
        (fun a b => strLeB (key a) (key b) = true) by
    exact hgen [] (by simp)
  induction l with
  | nil => intro acc hacc; simpa using hacc
  | cons x xs ih =>
      intro acc hacc
      exact ih _ (chain'_insertSortedByKey key x acc hacc)

theorem mem_insertSortedByKey {α : Type} (key : α → String) (x a : α)
    (l : List α) : a ∈ insertSortedByKey key x l ↔ a = x ∨ a ∈ l := by
  induction l with
  | nil => simp [insertSortedByKey]
  | cons y ys ih =>
      unfold insertSortedByKey
      split
      · simp [ih]; tauto
      · simp

theorem mem_pySortByKey {α : Type} (key : α → String) (a : α) (l : List α) :
    a ∈ pySortByKey key l ↔ a ∈ l := by
  unfold pySortByKey
  suffices hgen : ∀ acc, a ∈ l.foldl (fun acc x => insertSortedByKey key x acc) acc
      ↔ a ∈ acc ∨ a ∈ l by
    simpa using hgen []
  induction l with
  | nil => intro acc; simp
  | cons x xs ih =>
      intro acc
      simp only [List.foldl_cons]
      rw [ih]
      rw [mem_insertSortedByKey]
      simp
      tauto

theorem length_insertSortedByKey {α : Type} (key : α → String) (x : α)
    (l : List α) : (insertSortedByKey key x l).length = l.length + 1 := by
  induction l with
  | nil => simp [insertSortedByKey]
  | cons y ys ih =>
      unfold insertSortedByKey
      split
      · simp [ih]
      · simp

theorem length_pySortByKey {α : Type} (key : α → String) (l : List α) :
    (pySortByKey key l).length = l.length := by
  unfold pySortByKey
  suffices hgen : ∀ acc, (l.foldl (fun acc x => insertSortedByKey key x acc) acc).length
      = acc.length + l.length by
    simpa using hgen []
  induction l with
  | nil => intro acc; simp
  | cons x xs ih =>
      intro acc
      simp only [List.foldl_cons]
      rw [ih, length_insertSortedByKey]
      simp only [List.length_cons]
      omega

/-! ## Shape of a successful `process_logger` call -/

theorem sortedTR_nil : SortedTR [] := by
  intro p hp; simp at hp

theorem sortedMM_nil : SortedMM [] := by
  intro p hp; simp at hp

theorem sortedRes_dset {res : NSResults} {k : String} {v : TypeToResults}
    (h1 : SortedRes res) (h2 : SortedTR v) : SortedRes (dset res k v) := by
  intro p hp
  rcases mem_dset hp with hpe | hpm
  · rw [hpe]; exact h2
  · exact h1 p hpm

theorem sortedTR_dset {tr : TypeToResults} {k : String} {v : ModelToResults}
    (h1 : SortedTR tr) (h2 : SortedMM v) : SortedTR (dset tr k v) := by
  intro p hp
  rcases mem_dset hp with hpe | hpm
  · rw [hpe]; exact h2
  · exact h1 p hpm

theorem sortedMM_dset {mm : ModelToResults} {k : String} {v : List NSRecord}
    (h1 : SortedMM mm) (h2 : SortedRecs v) : SortedMM (dset mm k v) := by
  intro p hp
  rcases mem_dset hp with hpe | hpm
  · rw [hpe]; exact h2
  · exact h1 p hpm

theorem sortedTR_getD {res : NSResults} {k : String} (h : SortedRes res) :
    SortedTR ((dget res k).getD []) := by
  cases hg : dget res k with
  | none => intro p hp; simp at hp
  | some tr =>
      have := h (k, tr) (dget_mem hg)
      simpa using this

theorem sortedMM_getD {tr : TypeToResults} {k : String} (h : SortedTR tr) :
    SortedMM ((dget tr k).getD []) := by
  cases hg : dget tr k with
  | none => intro p hp; simp at hp
  | some mm =>
      have := h (k, mm) (dget_mem hg)
      simpa using this

/-- Decomposition of a successful `process_logger` call into the four
intermediate values of the source (`results1`, `lvl1a`, `lvl2a`,
`lst`). -/
theorem process_logger_ok_shape {res : NSResults} {mod : OutputLogger}
    {res' : NSResults} (h : process_logger res mod = Except.ok res') :
    ∃ (R1 : NSResults) (L1A : TypeToResults) (L2A : ModelToResults)
      (lst : List NSRecord),
      (R1 = res ∨ R1 = dset res mod.ref_name []) ∧
      (L1A = (dget R1 mod.ref_name).getD [] ∨
        L1A = dset ((dget R1 mod.ref_name).getD []) mod.results_type []) ∧
      (L2A = (dget L1A mod.results_type).getD [] ∨
        L2A = dset ((dget L1A mod.results_type).getD []) mod.model_name []) ∧
      lst = (dget L2A mod.model_name).getD [] ∧
      res' = dset R1 mod.ref_name
        (dset L1A mod.results_type
          (dset L2A mod.model_name (pySortByKey recKey (lst ++ [mkRecord mod])))) := by
  simp only [process_logger] at h
  split at h
  · -- results1 = results
    split at h
    · exact Except.noConfusion h
    · injection h with h
      split at h
      · split at h
        · exact ⟨_, _, _, _, Or.inl rfl, Or.inl rfl, Or.inl rfl, rfl, h.symm⟩
        · exact ⟨_, _, _, _, Or.inl rfl, Or.inl rfl, Or.inr rfl, rfl, h.symm⟩
      · split at h
        · exact ⟨_, _, _, _, Or.inl rfl, Or.inr rfl, Or.inl rfl, rfl, h.symm⟩
        · exact ⟨_, _, _, _, Or.inl rfl, Or.inr rfl, Or.inr rfl, rfl, h.symm⟩
  · -- results1 = dset results key []
    split at h
    · exact Except.noConfusion h
    · injection h with h
      split at h
      · split at h
        · exact ⟨_, _, _, _, Or.inr rfl, Or.inl rfl, Or.inl rfl, rfl, h.symm⟩
        · exact ⟨_, _, _, _, Or.inr rfl, Or.inl rfl, Or.inr rfl, rfl, h.symm⟩
      · split at h
        · exact ⟨_, _, _, _, Or.inr rfl, Or.inr rfl, Or.inl rfl, rfl, h.symm⟩
        · exact ⟨_, _, _, _, Or.inr rfl, Or.inr rfl, Or.inr rfl, rfl, h.symm⟩

/-- `process_logger` preserves "every record list is sorted by the
string key". -/
theorem process_logger_sorted {res : NSResults} {mod : OutputLogger}
    {res' : NSResults} (hres : SortedRes res)
    (h : process_logger res mod = Except.ok res') : SortedRes res' := by
  obtain ⟨R1, L1A, L2A, lst, hR1, hL1A, hL2A, _, hres'⟩ :=
    process_logger_ok_shape h
  have sR1 : SortedRes R1 := by
    rcases hR1 with he | he <;> rw [he]
    · exact hres
    · exact sortedRes_dset hres sortedTR_nil
  have sL1A : SortedTR L1A := by
    rcases hL1A with he | he <;> rw [he]
    · exact sortedTR_getD sR1
    · exact sortedTR_dset (sortedTR_getD sR1) sortedMM_nil
  have sL2A : SortedMM L2A := by
    rcases hL2A with he | he <;> rw [he]
    · exact sortedMM_getD sL1A
    · exact sortedMM_dset (sortedMM_getD sL1A) (by simp [SortedRecs])
  rw [hres']
  exact sortedRes_dset sR1
    (sortedTR_dset sL1A
      (sortedMM_dset sL2A (chain'_pySortByKey recKey _)))

/-- The loop of `_extract_logger_info_one_model` preserves sortedness. -/
theorem extract_logger_info_sorted :
    ∀ (mods : List OutputLogger) (res res' : NSResults), SortedRes res →
      extract_logger_info_one_model mods res = Except.ok res' → SortedRes res' := by
  intro mods
  induction mods with
  | nil =>
      intro res res' hres h
      simp only [extract_logger_info_one_model] at h
      injection h with h
      rw [← h]; exact hres
  | cons mod mods ih =>
      intro res res' hres h
      simp only [extract_logger_info_one_model] at h
      cases hp : process_logger res mod with
      | error e => rw [hp] at h; cases h
      | ok mid =>
          rw [hp] at h
          exact ih mid res' (process_logger_sorted hres hp) h

/-- Splitting the extraction loop over an append. -/
theorem extract_logger_info_append (l1 l2 : List OutputLogger)
    (res : NSResults) :
    extract_logger_info_one_model (l1 ++ l2) res =
      match extract_logger_info_one_model l1 res with
      | Except.error e => Except.error e
      | Except.ok mid => extract_logger_info_one_model l2 mid := by
  induction l1 generalizing res with
  | nil => simp [extract_logger_info_one_model]
  | cons mod l1 ih =>
      simp only [List.cons_append, extract_logger_info_one_model]
      cases hp : process_logger res mod with
      | error e => rfl
      | ok mid => exact ih mid

/-! ## Computation lemmas for small inputs -/

theorem process_logger_empty (mod : OutputLogger) :
    process_logger [] mod = Except.ok
      [(mod.ref_name, [(mod.results_type,
        [(mod.model_name, [mkRecord mod])])])] := by
  simp [process_logger, dget, dset, List.find?, pySortByKey, insertSortedByKey]

theorem process_logger_same_group (l1 l2 : OutputLogger)
    (h1 : l2.ref_name = l1.ref_name) (h2 : l2.results_type = l1.results_type)
    (h3 : l2.model_name = l1.model_name)
    (h4 : l2.model_name ≠ l1.results_type) :
    process_logger
        [(l1.ref_name, [(l1.results_type, [(l1.model_name, [mkRecord l1])])])] l2 =
      Except.ok [(l1.ref_name, [(l1.results_type,
        [(l1.model_name, pySortByKey recKey ([mkRecord l1] ++ [mkRecord l2]))])])] := by
  have hb : (l1.results_type == l1.model_name) = false := by
    rw [h3] at h4
    simp [Ne.symm h4]
  simp [process_logger, dget, dset, List.find?, h1, h2, h3, hb]

/-! ## Claims C2, C3, C10 -/

/-- C2 counterexample: the code sorts by the string
`f"{index_of_arg}:{index_within_arg}"`, so two records with
`index_of_arg` 2 and 10 end up ordered `[10, 2]` — the extracted list is
not sorted ascending by the numeric pair `(index_of_arg,
index_within_arg)`. -/
theorem c2_counterexample :
    extract_logger_info_one_model [c2LoggerA, c2LoggerB] [] =
      Except.ok [("sub0", [("node_output",
        [("a", [mkRecord c2LoggerB, mkRecord c2LoggerA])])])] ∧
    (mkRecord c2LoggerB).index_of_arg = 10 ∧
    (mkRecord c2LoggerA).index_of_arg = 2 ∧
    ¬ sortedByNumPair [mkRecord c2LoggerB, mkRecord c2LoggerA] := by
  refine ⟨rfl, rfl, rfl, ?_⟩
  intro hs
  unfold sortedByNumPair at hs
  rw [List.chain'_cons] at hs
  obtain ⟨hr, -⟩ := hs
  simp [mkRecord, c2LoggerB, c2LoggerA, c1Logger] at hr

/-- C2 (amended): every record list produced by logger-info extraction
is sorted ascending by the lexicographic **string** key
`f"{index_of_arg}:{index_within_arg}"` (which coincides with the numeric
pair order only while both indices have equally many digits),
independent of the order in which the probe modules were traversed. -/
theorem c2_amended (mods : List OutputLogger) (res : NSResults)
    (h : extract_logger_info_one_model mods [] = Except.ok res) :
    SortedRes res := by
  refine extract_logger_info_sorted mods [] res ?_ h
  intro p hp
  simp at hp

/-- Witness for `c2_amended` on a concrete extraction. -/
theorem c2_amended_witness :
    extract_logger_info_one_model [c2WLogger] [] =
      Except.ok [("sub0", [("node_output", [("a", [mkRecord c2WLogger])])])] ∧
    SortedRes [("sub0", [("node_output", [("a", [mkRecord c2WLogger])])])] :=
  ⟨rfl, c2_amended [c2WLogger]
    [("sub0", [("node_output", [("a", [mkRecord c2WLogger])])])] rfl⟩

/-- C3 counterexample: two probes with identical match-name
(`ref_name`), result-type and owning-model-name are aggregated without
an error — the `assert` checks the model name against the *results-type*
level keys, so extraction returns a results structure holding both
records instead of raising. -/
theorem c3_counterexample :
    c3Logger1.model_name = c3Logger2.model_name ∧
    c3Logger1.ref_name = c3Logger2.ref_name ∧
    c3Logger1.results_type = c3Logger2.results_type ∧
    extract_logger_info_one_model [c3Logger1, c3Logger2] [] =
      Except.ok [("sub0", [("node_output",
        [("a", [mkRecord c3Logger1, mkRecord c3Logger2])])])] :=
  ⟨rfl, rfl, rfl, rfl⟩

/-- C3 (amended): aggregation raises only when a probe's model-name
equals one of the result-type keys already present under its match-name;
two probes sharing the owning-model-name for one
match-name/result-type pair (with a model name distinct from the
result-type tag) do not raise — the second record is appended to the
same list, which then has two entries. -/
theorem c3_amended (l1 l2 : OutputLogger)
    (h1 : l2.ref_name = l1.ref_name) (h2 : l2.results_type = l1.results_type)
    (h3 : l2.model_name = l1.model_name)
    (h4 : l2.model_name ≠ l1.results_type) :
    ∃ res, extract_logger_info_one_model [l1, l2] [] = Except.ok res ∧
      (dget3 res l1.ref_name l1.results_type l1.model_name).map List.length =
        some 2 := by
  refine ⟨[(l1.ref_name, [(l1.results_type,
      [(l1.model_name, pySortByKey recKey ([mkRecord l1] ++ [mkRecord l2]))])])],
      ?_, ?_⟩
  · simp only [extract_logger_info_one_model, process_logger_empty l1,
      process_logger_same_group l1 l2 h1 h2 h3 h4]
  · simp [dget3, dget, List.find?, length_pySortByKey]

/-- Witness for `c3_amended` on the concrete duplicate pair. -/
theorem c3_amended_witness :
    ∃ res, extract_logger_info_one_model [c3Logger1, c3Logger2] [] =
        Except.ok res ∧
      (dget3 res c3Logger1.ref_name c3Logger1.results_type
          c3Logger1.model_name).map List.length = some 2 :=
  c3_amended c3Logger1 c3Logger2 rfl rfl rfl (by decide)

/-- C10: whenever extraction processes a logger whose `stats_rnn` is
non-empty, the emitted record's `values` field is exactly `stats_rnn`
and the plain captures in `stats` are omitted; `stats` is reported only
when `stats_rnn` is empty.  The record is present in the group keyed by
the logger's match-name, result-type and model name. -/
theorem c10_rnn_priority (mods : List OutputLogger) (mod : OutputLogger)
    (res : NSResults)
    (h : extract_logger_info_one_model (mods ++ [mod]) [] = Except.ok res) :
    ∃ l, dget3 res mod.ref_name mod.results_type mod.model_name = some l ∧
      mkRecord mod ∈ l ∧
      (mod.stats_rnn ≠ [] → (mkRecord mod).values = CapStats.rnn mod.stats_rnn) ∧
      (mod.stats_rnn = [] → (mkRecord mod).values = CapStats.plain mod.stats) := by
  rw [extract_logger_info_append] at h
  cases he : extract_logger_info_one_model mods [] with
  | error e => rw [he] at h; cases h
  | ok mid =>
      rw [he] at h
      simp only [extract_logger_info_one_model] at h
      cases hp : process_logger mid mod with
      | error e => rw [hp] at h; cases h
      | ok fin =>
          rw [hp] at h
          injection h with h
          subst h
          obtain ⟨R1, L1A, L2A, lst, _, _, _, _, hfin⟩ :=
            process_logger_ok_shape hp
          subst hfin
          refine ⟨pySortByKey recKey (lst ++ [mkRecord mod]), ?_, ?_, ?_, ?_⟩
          · simp [dget3, dget_dset_self]
          · rw [mem_pySortByKey]
            simp
          · intro hne
            have hpos : 0 < mod.stats_rnn.length := List.length_pos.mpr hne
            simp [mkRecord, hpos]
          · intro hemp
            simp [mkRecord, hemp]

/-- Witness for `c10_rnn_priority` on a logger carrying both plain and
recurrent captures. -/
theorem c10_rnn_priority_witness :
    extract_logger_info_one_model ([] ++ [c10Mod]) [] =
      Except.ok [("sub0", [("node_output", [("a", [mkRecord c10Mod])])])] ∧
    (∃ l, dget3 [("sub0", [("node_output", [("a", [mkRecord c10Mod])])])]
          c10Mod.ref_name c10Mod.results_type c10Mod.model_name = some l ∧
        mkRecord c10Mod ∈ l ∧
        (c10Mod.stats_rnn ≠ [] →
          (mkRecord c10Mod).values = CapStats.rnn c10Mod.stats_rnn) ∧
        (c10Mod.stats_rnn = [] →
          (mkRecord c10Mod).values = CapStats.plain c10Mod.stats)) :=
  ⟨rfl, c10_rnn_priority [] c10Mod
    [("sub0", [("node_output", [("a", [mkRecord c10Mod])])])] rfl⟩

/-! ## Claims C5, C6 -/

theorem compareAll_ok_eq (f : CapVal → CapVal → Tensor) (cname : String)
    (l1 : List NSRecord) :
    ∀ l2 : List NSRecord, exceptOk (compareAll f cname l1 l2) =
      l2.all (fun r2 => (findMatch l1 r2.index_within_arg r2.index_of_arg).isSome) := by
  intro l2
  induction l2 with
  | nil => rfl
  | cons r2 rest ih =>
      simp only [compareAll, compareResult, List.all_cons]
      cases hm : findMatch l1 r2.index_within_arg r2.index_of_arg with
      | none => exact (Bool.false_and _).symm
      | some r1 =>
          cases hr : compareAll f cname l1 rest with
          | error e =>
              rw [hr] at ih
              exact ih.trans (Bool.true_and _).symm
          | ok rest' =>
              rw [hr] at ih
              exact ih.trans (Bool.true_and _).symm

theorem extendModelResults_ok_eq (f : CapVal → CapVal → Tensor)
    (cname n1 n2 : String) (mm : ModelToResults) :
    exceptOk (extendModelResults f cname n1 n2 mm) = groupOkB n1 n2 mm := by
  unfold extendModelResults groupOkB
  cases h1 : dget mm n1 with
  | none => rfl
  | some l1 =>
      cases h2 : dget mm n2 with
      | none => rfl
      | some l2 =>
          show exceptOk (match compareAll f cname l1 l2 with
              | Except.error e => Except.error e
              | Except.ok results_2' => Except.ok (dset mm n2 results_2')) =
            l2.all (fun r2 => (findMatch l1 r2.index_within_arg r2.index_of_arg).isSome)
          have hc := compareAll_ok_eq f cname l1 l2
          cases hr : compareAll f cname l1 l2 with
          | error e => rw [hr] at hc; exact hc
          | ok l2' => rw [hr] at hc; exact hc

theorem extendTypeResults_ok_eq (f : CapVal → CapVal → Tensor)
    (cname n1 n2 : String) :
    ∀ tr : TypeToResults, exceptOk (extendTypeResults f cname n1 n2 tr) =
      tr.all (fun q => groupOkB n1 n2 q.2) := by
  intro tr
  induction tr with
  | nil => rfl
  | cons q rest ih =>
      obtain ⟨rt, mm⟩ := q
      show exceptOk (match extendModelResults f cname n1 n2 mm with
          | Except.error e => Except.error e
          | Except.ok mm' =>
              match extendTypeResults f cname n1 n2 rest with
              | Except.error e => Except.error e
              | Except.ok rest' => Except.ok ((rt, mm') :: rest')) =
        (groupOkB n1 n2 mm && rest.all (fun q => groupOkB n1 n2 q.2))
      have hg := extendModelResults_ok_eq f cname n1 n2 mm
      cases hm : extendModelResults f cname n1 n2 mm with
      | error e =>
          rw [hm] at hg
          rw [← hg]
          rfl
      | ok mm' =>
          rw [hm] at hg
          rw [← hg]
          cases hr : extendTypeResults f cname n1 n2 rest with
          | error e => rw [hr] at ih; rw [← ih]; rfl
          | ok rest' => rw [hr] at ih; rw [← ih]; rfl

theorem extend_ok_eq (results : NSResults) (n1 n2 : String)
    (f : CapVal → CapVal → Tensor) (cname : String) :
    exceptOk (extend_logger_results_with_comparison results n1 n2 f cname) =
      results.all (fun p => p.2.all (fun q => groupOkB n1 n2 q.2)) := by
  induction results with
  | nil => rfl
  | cons p rest ih =>
      obtain ⟨key, tr⟩ := p
      show exceptOk (match extendTypeResults f cname n1 n2 tr with
          | Except.error e => Except.error e
          | Except.ok tr' =>
              match extend_logger_results_with_comparison rest n1 n2 f cname with
              | Except.error e => Except.error e
              | Except.ok rest' => Except.ok ((key, tr') :: rest')) =
        (tr.all (fun q => groupOkB n1 n2 q.2) &&
          rest.all (fun p => p.2.all (fun q => groupOkB n1 n2 q.2)))
      have ht := extendTypeResults_ok_eq f cname n1 n2 tr
      cases hm : extendTypeResults f cname n1 n2 tr with
      | error e =>
          rw [hm] at ht
          rw [← ht]
          rfl
      | ok tr' =>
          rw [hm] at ht
          rw [← ht]
          cases hr : extend_logger_results_with_comparison rest n1 n2 f cname with
          | error e => rw [hr] at ih; rw [← ih]; rfl
          | ok rest' => rw [hr] at ih; rw [← ih]; rfl

/-- C5: `extend_logger_results_with_comparison` does not raise exactly
when, in every match-name/result-type group of `results`, both given
model names have a record list and every model-2 record has a model-1
record with the same `(index_of_arg, index_within_arg)`; it raises as
soon as a group misses one of the model names or a positional
counterpart. -/
theorem c5_comparison_raises_iff (results : NSResults) (n1 n2 : String)
    (f : CapVal → CapVal → Tensor) (cname : String) :
    exceptOk (extend_logger_results_with_comparison results n1 n2 f cname) = true ↔
      ∀ p ∈ results, ∀ q ∈ p.2, groupOkB n1 n2 q.2 = true := by
  rw [extend_ok_eq]
  simp [List.all_eq_true]

/-- Witness for `c5_comparison_raises_iff` on a concrete results
structure where every group is complete. -/
theorem c5_witness :
    exceptOk (extend_logger_results_with_comparison c56Res "a" "b" cmpFn "cmp") = true :=
  (c5_comparison_raises_iff c56Res "a" "b" cmpFn "cmp").mpr (by decide)

theorem compareAll_forall2 (f : CapVal → CapVal → Tensor) (cname : String)
    (l1 : List NSRecord) :
    ∀ l2 l2' : List NSRecord, compareAll f cname l1 l2 = Except.ok l2' →
      List.Forall₂ (fun r2 r2' =>
        ∃ r1, findMatch l1 r2.index_within_arg r2.index_of_arg = some r1 ∧
          r2' = { r2 with cmps := dset r2.cmps cname (List.zipWith f (CapStats.toList r1.values) (CapStats.toList r2.values)) }) l2 l2' := by
  intro l2
  induction l2 with
  | nil =>
      intro l2' h
      injection h with h
      rw [← h]
      exact List.Forall₂.nil
  | cons r2 rest ih =>
      intro l2' h
      simp only [compareAll] at h
      split at h
      · exact Except.noConfusion h
      · rename_i r2a heq
        split at h
        · exact Except.noConfusion h
        · rename_i rest' hr
          injection h with h
          rw [← h]
          unfold compareResult at heq
          split at heq
          · exact Except.noConfusion heq
          · rename_i r1 hm
            injection heq with heq
            exact List.Forall₂.cons ⟨r1, hm, heq.symm⟩ (ih rest' hr)

/-- Relation tying one match-name/result-type group to its enriched
output group: model 1's and model 2's lists are present, only the
model-2 entry is rewritten, and each model-2 record gains, under the
comparison name, the element-wise comparison against its positional
counterpart. -/
def groupRel (n1 n2 : String) (f : CapVal → CapVal → Tensor) (cname : String)
    (mm mm' : ModelToResults) : Prop :=
  ∃ l1 l2 l2', dget mm n1 = some l1 ∧ dget mm n2 = some l2 ∧
    mm' = dset mm n2 l2' ∧
    List.Forall₂ (fun r2 r2' =>
      ∃ r1, findMatch l1 r2.index_within_arg r2.index_of_arg = some r1 ∧
        r2' = { r2 with cmps := dset r2.cmps cname (List.zipWith f (CapStats.toList r1.values) (CapStats.toList r2.values)) }) l2 l2'

theorem extendModelResults_rel (f : CapVal → CapVal → Tensor)
    (cname n1 n2 : String) (mm mm' : ModelToResults)
    (h : extendModelResults f cname n1 n2 mm = Except.ok mm') :
    groupRel n1 n2 f cname mm mm' := by
  unfold extendModelResults at h
  split at h
  · exact Except.noConfusion h
  · rename_i l1 h1
    split at h
    · exact Except.noConfusion h
    · rename_i l2 h2
      split at h
      · exact Except.noConfusion h
      · rename_i l2' hr
        injection h with h
        exact ⟨l1, l2, l2', h1, h2, h.symm,
          compareAll_forall2 f cname l1 l2 l2' hr⟩

theorem extendTypeResults_rel (f : CapVal → CapVal → Tensor)
    (cname n1 n2 : String) :
    ∀ tr tr' : TypeToResults,
      extendTypeResults f cname n1 n2 tr = Except.ok tr' →
      List.Forall₂ (fun q q' => q.1 = q'.1 ∧ groupRel n1 n2 f cname q.2 q'.2)
        tr tr' := by
  intro tr
  induction tr with
  | nil =>
      intro tr' h
      injection h with h
      rw [← h]
      exact List.Forall₂.nil
  | cons q rest ih =>
      intro tr' h
      obtain ⟨rt, mm⟩ := q
      simp only [extendTypeResults] at h
      split at h
      · exact Except.noConfusion h
      · rename_i mm' hm
        split at h
        · exact Except.noConfusion h
        · rename_i rest' hr
          injection h with h
          rw [← h]
          exact List.Forall₂.cons
            ⟨rfl, extendModelResults_rel f cname n1 n2 mm mm' hm⟩
            (ih rest' hr)

/-- C6: on success, `extend_logger_results_with_comparison` keeps the
key structure of `results`; in every group it pairs each model-2 record
with the first model-1 record matching its
`(index_of_arg, index_within_arg)`, zips the two records' captured value
sequences element-wise in capture order, applies the caller-supplied
comparison function per pair, and stores the resulting list in the
model-2 record under the caller-supplied comparison name; only the
model-2 entry of the group is rewritten. -/
theorem c6_comparison_semantics (results : NSResults) (n1 n2 : String)
    (f : CapVal → CapVal → Tensor) (cname : String) (results' : NSResults)
    (h : extend_logger_results_with_comparison results n1 n2 f cname =
      Except.ok results') :
    List.Forall₂ (fun p p' => p.1 = p'.1 ∧
      List.Forall₂ (fun q q' => q.1 = q'.1 ∧ groupRel n1 n2 f cname q.2 q'.2)
        p.2 p'.2) results results' := by
  induction results generalizing results' with
  | nil =>
      injection h with h
      rw [← h]
      exact List.Forall₂.nil
  | cons p rest ih =>
      obtain ⟨key, tr⟩ := p
      simp only [extend_logger_results_with_comparison] at h
      split at h
      · exact Except.noConfusion h
      · rename_i tr' hm
        split at h
        · exact Except.noConfusion h
        · rename_i rest' hr
          injection h with h
          rw [← h]
          exact List.Forall₂.cons
            ⟨rfl, extendTypeResults_rel f cname n1 n2 tr tr' hm⟩
            (ih rest' hr)

/-- Witness for `c6_comparison_semantics` on a concrete two-model
results structure. -/
theorem c6_witness :
    extend_logger_results_with_comparison c56Res "a" "b" cmpFn "cmp" =
      Except.ok c56Res' ∧
    List.Forall₂ (fun p p' => p.1 = p'.1 ∧
      List.Forall₂ (fun q q' => q.1 = q'.1 ∧ groupRel "a" "b" cmpFn "cmp" q.2 q'.2)
        p.2 p'.2) c56Res c56Res' :=
  ⟨rfl, c6_comparison_semantics c56Res "a" "b" cmpFn "cmp" c56Res' rfl⟩

/-! ## Claims C7, C8, C9 -/

theorem wrapperBlock_subgraphIdx (i : Nat) (name : String) :
    ∀ (qmaps : List (String → Option QConfig)) (j : Nat),
      ∀ ins ∈ wrapperBlock i name qmaps j, ins.subgraphIdx = i := by
  intro qmaps
  induction qmaps with
  | nil => intro j ins h; simp [wrapperBlock] at h
  | cons qmap qmaps ih =>
      intro j ins h
      simp only [wrapperBlock, List.mem_append] at h
      rcases h with h | h
      · split at h
        · simp at h; rw [h]
        · simp at h
      · exact ih (j + 1) ins h

theorem wrapperLoop_ok (i : Nat) (g : GNode) :
    ∀ (qmaps : List (String → Option QConfig)) (j : Nat) (st st' : PrepState),
      wrapperLoop i g st qmaps j = Except.ok st' →
      st'.attrs = st.attrs ++ (wrapperBlock i g.name qmaps j).map Insertion.attrName ∧
      st'.inserts = st.inserts ++ wrapperBlock i g.name qmaps j ∧
      st'.diags = st.diags ∧
      ∀ ins ∈ wrapperBlock i g.name qmaps j, ins.attrName ∉ st.attrs := by
  intro qmaps
  induction qmaps with
  | nil =>
      intro j st st' h
      injection h with h
      rw [← h]
      simp [wrapperBlock]
  | cons qmap qmaps ih =>
      intro j st st' h
      simp only [wrapperLoop] at h
      cases hq : qmap g.name with
      | none =>
          rw [hq] at h
          have h' : wrapperLoop i g st qmaps (j + 1) = Except.ok st' := h
          obtain ⟨ha, hi, hd, hni⟩ := ih (j + 1) st st' h'
          refine ⟨?_, ?_, hd, ?_⟩
          · rw [ha]; simp [wrapperBlock, hq]
          · rw [hi]; simp [wrapperBlock, hq]
          · intro ins hins
            simp only [wrapperBlock, hq] at hins
            simp at hins
            exact hni ins hins
      | some q =>
          rw [hq] at h
          have h' : (if AttrName.wrapper i j ∈ st.attrs then
                (Except.error PrepErr.assertionError : Except PrepErr PrepState)
              else wrapperLoop i g
                { st with attrs := st.attrs ++ [AttrName.wrapper i j],
                          inserts := st.inserts ++
                            [⟨i, j, BranchKind.shadowWrapper⟩] }
                qmaps (j + 1)) = Except.ok st' := h
          by_cases hmem : AttrName.wrapper i j ∈ st.attrs
          · rw [if_pos hmem] at h'
            exact Except.noConfusion h'
          · rw [if_neg hmem] at h'
            obtain ⟨ha, hi, hd, hni⟩ := ih (j + 1) _ st' h'
            refine ⟨?_, ?_, hd, ?_⟩
            · rw [ha]
              simp [wrapperBlock, hq, Insertion.attrName, List.append_assoc]
            · rw [hi]
              simp [wrapperBlock, hq, List.append_assoc]
            · intro ins hins
              simp only [wrapperBlock, hq] at hins
              simp at hins
              rcases hins with hins | hins
              · rw [hins]
                simpa [Insertion.attrName] using hmem
              · intro hc
                exact (hni ins hins) (by simp [hc])

theorem wrapperLoop_progress (i : Nat) (g : GNode) :
    ∀ (qmaps : List (String → Option QConfig)) (j : Nat) (st : PrepState),
      (∀ j', j ≤ j' → AttrName.wrapper i j' ∉ st.attrs) →
      ∃ st', wrapperLoop i g st qmaps j = Except.ok st' := by
  intro qmaps
  induction qmaps with
  | nil => intro j st _; exact ⟨st, rfl⟩
  | cons qmap qmaps ih =>
      intro j st hfree
      simp only [wrapperLoop]
      cases hq : qmap g.name with
      | none => exact ih (j + 1) st (fun j' hj' => hfree j' (by omega))
      | some q =>
          rw [if_neg (hfree j (Nat.le_refl j))]
          refine ih (j + 1) _ ?_
          intro j' hj'
          simp only [List.mem_append]
          intro hc
          rcases hc with hc | hc
          · exact hfree j' (by omega) hc
          · simp at hc
            omega

theorem candidateLoop_ok {qmaps : List (String → Option QConfig)} {i : Nat}
    {g : GNode} {st st' : PrepState}
    (h : candidateLoop qmaps i g st = Except.ok st') :
    st'.attrs = st.attrs ++
      ((⟨i, 0, BranchKind.origLogger⟩ :: wrapperBlock i g.name qmaps 1).map
        Insertion.attrName) ∧
    st'.inserts = st.inserts ++
      (⟨i, 0, BranchKind.origLogger⟩ :: wrapperBlock i g.name qmaps 1) ∧
    st'.diags = st.diags ∧
    ∀ ins ∈ (⟨i, 0, BranchKind.origLogger⟩ :: wrapperBlock i g.name qmaps 1),
      Insertion.attrName ins ∉ st.attrs := by
  unfold candidateLoop at h
  have hf : floatBranchStep i st = (if AttrName.logger i 0 ∈ st.attrs then
      (Except.error PrepErr.assertionError : Except PrepErr PrepState)
    else Except.ok { st with
                     attrs := st.attrs ++ [AttrName.logger i 0],
                     inserts := st.inserts ++ [⟨i, 0, BranchKind.origLogger⟩] }) := rfl
  by_cases hmem : AttrName.logger i 0 ∈ st.attrs
  · rw [hf, if_pos hmem] at h
    exact Except.noConfusion h
  · rw [hf, if_neg hmem] at h
    have h' : wrapperLoop i g
        { st with
          attrs := st.attrs ++ [AttrName.logger i 0],
          inserts := st.inserts ++ [⟨i, 0, BranchKind.origLogger⟩] }
        qmaps 1 = Except.ok st' := h
    obtain ⟨ha, hi, hd, hni⟩ := wrapperLoop_ok i g qmaps 1 _ st' h'
    refine ⟨?_, ?_, hd, ?_⟩
    · rw [ha]; simp [Insertion.attrName, List.append_assoc]
    · rw [hi]; simp [List.append_assoc]
    · intro ins hins
      rcases List.mem_cons.mp hins with hins | hins
      · rw [hins]
        simpa [Insertion.attrName] using hmem
      · intro hc
        exact (hni ins hins) (by simp [hc])

theorem candidateLoop_progress {qmaps : List (String → Option QConfig)}
    {i : Nat} {g : GNode} {st : PrepState}
    (h0 : AttrName.logger i 0 ∉ st.attrs)
    (h1 : ∀ j, AttrName.wrapper i j ∉ st.attrs) :
    ∃ st', candidateLoop qmaps i g st = Except.ok st' := by
  unfold candidateLoop floatBranchStep
  rw [if_neg h0]
  refine wrapperLoop_progress i g qmaps 1 _ ?_
  intro j' hj'
  simp only [List.mem_append]
  intro hc
  rcases hc with hc | hc
  · exact h1 j' hc
  · simp at hc

theorem sgBlock_eq_nil_of_nonNode {qmaps : List (String → Option QConfig)}
    {idx : Nat} {sg : SubgraphEntry} (hnn : hasNonNode sg.nodes = true) :
    sgBlock qmaps idx sg = [] := by
  unfold sgBlock
  rw [if_pos hnn]

theorem sgBlock_eq_core {qmaps : List (String → Option QConfig)} {idx : Nat}
    {sg : SubgraphEntry} {g : GNode} (hnn : hasNonNode sg.nodes = false)
    (hfirst : firstNode? sg.nodes = some g) :
    sgBlock qmaps idx sg = sgBlockCore qmaps idx g := by
  unfold sgBlock
  rw [if_neg (by simp [hnn]), hfirst]

theorem sgBlockCore_eq_nil {qmaps : List (String → Option QConfig)}
    {idx : Nat} {g : GNode}
    (hex : getExampleInputs g.prevInput ≠ ExampleRes.ok) :
    sgBlockCore qmaps idx g = [] := by
  unfold sgBlockCore
  cases hex2 : getExampleInputs g.prevInput with
  | ok => exact absurd hex2 hex
  | noExample => rfl
  | raise => rfl

theorem sgBlockCore_ok {qmaps : List (String → Option QConfig)} {idx : Nat}
    {g : GNode} (hex : getExampleInputs g.prevInput = ExampleRes.ok) :
    sgBlockCore qmaps idx g =
      ⟨idx, 0, BranchKind.origLogger⟩ :: wrapperBlock idx g.name qmaps 1 := by
  unfold sgBlockCore
  rw [hex]

theorem sgBlock_subgraphIdx (qmaps : List (String → Option QConfig))
    (idx : Nat) (sg : SubgraphEntry) :
    ∀ ins ∈ sgBlock qmaps idx sg, ins.subgraphIdx = idx := by
  intro ins h
  unfold sgBlock at h
  split at h
  · simp at h
  · split at h
    · simp at h
    · rename_i g hfirst
      unfold sgBlockCore at h
      split at h
      · rcases List.mem_cons.mp h with h | h
        · rw [h]
        · exact wrapperBlock_subgraphIdx idx _ qmaps 1 ins h
      · simp at h

theorem processSubgraph_ok {qmaps : List (String → Option QConfig)}
    {st : PrepState} {idx : Nat} {sg : SubgraphEntry} {st' : PrepState}
    (h : processSubgraph qmaps st idx sg = Except.ok st') :
    st'.attrs = st.attrs ++ (sgBlock qmaps idx sg).map Insertion.attrName ∧
    st'.inserts = st.inserts ++ sgBlock qmaps idx sg ∧
    ∀ ins ∈ sgBlock qmaps idx sg, Insertion.attrName ins ∉ st.attrs := by
  unfold processSubgraph at h
  split at h
  · rename_i hnn
    injection h with h
    rw [← h, sgBlock_eq_nil_of_nonNode hnn]
    simp
  · rename_i hnn
    have hnn' : hasNonNode sg.nodes = false := by
      simpa using hnn
    split at h
    · exact Except.noConfusion h
    · rename_i g hfirst
      rw [sgBlock_eq_core hnn' hfirst]
      split at h
      · exact Except.noConfusion h
      · rename_i hex
        injection h with h
        rw [← h, sgBlockCore_eq_nil (by simp [hex])]
        simp
      · rename_i hex
        rw [sgBlockCore_ok hex]
        obtain ⟨ha, hi, _, hni⟩ := candidateLoop_ok h
        exact ⟨ha, hi, hni⟩

theorem processSubgraph_noassert {qmaps : List (String → Option QConfig)}
    {st : PrepState} {idx : Nat} {sg : SubgraphEntry}
    (hinv : ∀ a ∈ st.attrs, a.sgIdx < idx) :
    processSubgraph qmaps st idx sg ≠ Except.error PrepErr.assertionError := by
  unfold processSubgraph
  split
  · intro hc; exact Except.noConfusion hc
  · split
    · intro hc
      injection hc with hc
      exact PrepErr.noConfusion hc
    · rename_i g hfirst
      split
      · intro hc
        injection hc with hc
        exact PrepErr.noConfusion hc
      · intro hc; exact Except.noConfusion hc
      · have h0 : AttrName.logger idx 0 ∉ st.attrs := by
          intro hc
          have := hinv _ hc
          simp [AttrName.sgIdx] at this
        have h1 : ∀ j, AttrName.wrapper idx j ∉ st.attrs := by
          intro j hc
          have := hinv _ hc
          simp [AttrName.sgIdx] at this
        obtain ⟨st', hst'⟩ := candidateLoop_progress h0 h1
        rw [hst']
        intro hc; exact Except.noConfusion hc

theorem blocksFrom_subgraphIdx_ge (qmaps : List (String → Option QConfig)) :
    ∀ (l : List SubgraphEntry) (idx : Nat),
      ∀ ins ∈ blocksFrom qmaps idx l, idx ≤ ins.subgraphIdx := by
  intro l
  induction l with
  | nil => intro idx ins h; simp [blocksFrom] at h
  | cons sg rest ih =>
      intro idx ins h
      simp only [blocksFrom, List.mem_append] at h
      rcases h with h | h
      · rw [sgBlock_subgraphIdx qmaps idx sg ins h]
      · have := ih (idx + 1) ins h
        omega

theorem blocksFrom_filter (qmaps : List (String → Option QConfig)) :
    ∀ (l : List SubgraphEntry) (idx n : Nat) (sg : SubgraphEntry),
      l.get? n = some sg →
      (blocksFrom qmaps idx l).filter (fun ins => ins.subgraphIdx == idx + n) =
        sgBlock qmaps (idx + n) sg := by
  intro l
  induction l with
  | nil => intro idx n sg h; simp at h
  | cons sg0 rest ih =>
      intro idx n sg h
      cases n with
      | zero =>
          simp only [List.get?] at h
          injection h with h
          subst h
          simp only [blocksFrom, List.filter_append]
          have h1 : (sgBlock qmaps idx sg0).filter
              (fun ins => ins.subgraphIdx == idx + 0) = sgBlock qmaps idx sg0 := by
            apply List.filter_eq_self.mpr
            intro ins hins
            simp [sgBlock_subgraphIdx qmaps idx sg0 ins hins]
          have h2 : (blocksFrom qmaps (idx + 1) rest).filter
              (fun ins => ins.subgraphIdx == idx + 0) = [] := by
            apply List.filter_eq_nil_iff.mpr
            intro ins hins
            have := blocksFrom_subgraphIdx_ge qmaps rest (idx + 1) ins hins
            simp
            omega
          rw [h1, h2, List.append_nil]
          norm_num
      | succ m =>
          simp only [List.get?] at h
          simp only [blocksFrom, List.filter_append]
          have h1 : (sgBlock qmaps idx sg0).filter
              (fun ins => ins.subgraphIdx == idx + (m + 1)) = [] := by
            apply List.filter_eq_nil_iff.mpr
            intro ins hins
            have := sgBlock_subgraphIdx qmaps idx sg0 ins hins
            simp
            omega
          have h2 := ih (idx + 1) m sg h
          rw [h1]
          simp only [List.nil_append]
          have harith : idx + 1 + m = idx + (m + 1) := by omega
          rw [harith] at h2
          exact h2

theorem prepareLoop_ok (qmaps : List (String → Option QConfig)) :
    ∀ (l : List SubgraphEntry) (idx : Nat) (st st' : PrepState),
      prepareLoop qmaps idx l st = Except.ok st' →
      st'.attrs = st.attrs ++ (blocksFrom qmaps idx l).map Insertion.attrName ∧
      st'.inserts = st.inserts ++ blocksFrom qmaps idx l ∧
      ∀ ins ∈ blocksFrom qmaps idx l, Insertion.attrName ins ∉ st.attrs := by
  intro l
  induction l with
  | nil =>
      intro idx st st' h
      injection h with h
      rw [← h]
      simp [blocksFrom]
  | cons sg rest ih =>
      intro idx st st' h
      simp only [prepareLoop] at h
      split at h
      · exact Except.noConfusion h
      · rename_i st1 hps
        obtain ⟨ha1, hi1, hni1⟩ := processSubgraph_ok hps
        obtain ⟨ha2, hi2, hni2⟩ := ih (idx + 1) st1 st' h
        refine ⟨?_, ?_, ?_⟩
        · rw [ha2, ha1]
          simp [blocksFrom, List.append_assoc]
        · rw [hi2, hi1]
          simp [blocksFrom, List.append_assoc]
        · intro ins hins
          simp only [blocksFrom, List.mem_append] at hins
          rcases hins with hins | hins
          · exact hni1 ins hins
          · intro hc
            have := hni2 ins hins
            rw [ha1] at this
            exact this (by simp [hc])

theorem prepareLoop_noassert (qmaps : List (String → Option QConfig)) :
    ∀ (l : List SubgraphEntry) (idx : Nat) (st : PrepState),
      (∀ a ∈ st.attrs, a.sgIdx < idx) →
      prepareLoop qmaps idx l st ≠ Except.error PrepErr.assertionError := by
  intro l
  induction l with
  | nil =>
      intro idx st _ hc
      exact Except.noConfusion hc
  | cons sg rest ih =>
      intro idx st hinv
      simp only [prepareLoop]
      split
      · rename_i e hps
        intro hc
        injection hc with hc
        subst hc
        exact processSubgraph_noassert hinv hps
      · rename_i st1 hps
        refine ih (idx + 1) st1 ?_
        intro a ha
        obtain ⟨ha1, _, _⟩ := processSubgraph_ok hps
        rw [ha1] at ha
        rcases List.mem_append.mp ha with ha | ha
        · have := hinv a ha
          omega
        · rw [List.mem_map] at ha
          obtain ⟨ins, hins, hatt⟩ := ha
          have hidx := sgBlock_subgraphIdx qmaps idx sg ins hins
          rw [← hatt]
          unfold Insertion.attrName
          cases ins.kind <;> simp [AttrName.sgIdx, hidx]

theorem wrapperBlock_length (i : Nat) (name : String) :
    ∀ (qmaps : List (String → Option QConfig)) (j : Nat),
      (wrapperBlock i name qmaps j).length + countNullConfigs name qmaps =
        qmaps.length := by
  intro qmaps
  induction qmaps with
  | nil => intro j; rfl
  | cons qmap qmaps ih =>
      intro j
      simp only [wrapperBlock, countNullConfigs, List.length_append,
        List.length_cons]
      cases hq : qmap name with
      | none =>
          simp only [Option.isNone_none, Option.isSome_none, if_true,
            Bool.false_eq_true, if_false, List.length_nil]
          have := ih (j + 1)
          omega
      | some q =>
          simp only [Option.isNone_some, Option.isSome_some, if_true,
            Bool.false_eq_true, if_false, List.length_singleton]
          have := ih (j + 1)
          omega

/-- C7: in a successful sweep construction, a subgraph (all of whose
entries are graph nodes) whose first node's upstream input has a usable
example value receives exactly one floating-point probed branch at
candidate index 0 plus one shadow-wrapper branch per config candidate
whose per-node config for the first node is non-null (candidate indices
follow list position); with `N` candidates of which `k` resolve to null
that is `1 + (N - k)` probed branches. -/
theorem c7_sweep_branches (subgraphs : List SubgraphEntry)
    (qmaps : List (String → Option QConfig)) (attrs0 : List AttrName)
    (st' : PrepState) (i : Nat) (sg : SubgraphEntry) (g : GNode)
    (hget : subgraphs.get? i = some sg)
    (hnn : hasNonNode sg.nodes = false)
    (hfirst : firstNode? sg.nodes = some g)
    (hex : getExampleInputs g.prevInput = ExampleRes.ok)
    (hrun : prepare_n_shadows_model subgraphs qmaps ⟨attrs0, [], []⟩ =
      Except.ok st') :
    st'.inserts.filter (fun ins => ins.subgraphIdx == i) =
      Insertion.mk i 0 BranchKind.origLogger :: wrapperBlock i g.name qmaps 1 ∧
    (st'.inserts.filter (fun ins => ins.subgraphIdx == i)).length =
      1 + (qmaps.length - countNullConfigs g.name qmaps) := by
  unfold prepare_n_shadows_model at hrun
  obtain ⟨_, hi, _⟩ := prepareLoop_ok qmaps subgraphs 0 _ st' hrun
  have hfil := blocksFrom_filter qmaps subgraphs 0 i sg hget
  simp only [Nat.zero_add] at hfil
  have hblock : sgBlock qmaps i sg =
      Insertion.mk i 0 BranchKind.origLogger :: wrapperBlock i g.name qmaps 1 := by
    rw [sgBlock_eq_core hnn hfirst, sgBlockCore_ok hex]
  have hmain : st'.inserts.filter (fun ins => ins.subgraphIdx == i) =
      Insertion.mk i 0 BranchKind.origLogger :: wrapperBlock i g.name qmaps 1 := by
    rw [hi]
    simp only [List.nil_append]
    rw [hfil, hblock]
  refine ⟨hmain, ?_⟩
  rw [hmain]
  simp only [List.length_cons]
  have := wrapperBlock_length i g.name qmaps 1
  omega

/-- Witness for `c7_sweep_branches`: one subgraph, two candidates of
which one resolves to a null config — 2 probed branches, not 3. -/
theorem c7_witness :
    [cSubgraph].get? 0 = some cSubgraph ∧
    hasNonNode cSubgraph.nodes = false ∧
    firstNode? cSubgraph.nodes = some cGNode ∧
    getExampleInputs cGNode.prevInput = ExampleRes.ok ∧
    prepare_n_shadows_model [cSubgraph] cQmaps ⟨[], [], []⟩ = Except.ok c7St ∧
    (c7St.inserts.filter (fun ins => ins.subgraphIdx == 0) =
      Insertion.mk 0 0 BranchKind.origLogger ::
        wrapperBlock 0 cGNode.name cQmaps 1 ∧
     (c7St.inserts.filter (fun ins => ins.subgraphIdx == 0)).length =
      1 + (cQmaps.length - countNullConfigs cGNode.name cQmaps)) :=
  ⟨rfl, rfl, rfl, rfl, rfl,
    c7_sweep_branches [cSubgraph] cQmaps [] c7St 0 cSubgraph cGNode
      rfl rfl rfl rfl rfl⟩

/-- C8: (1) a successful sweep construction's attribute set is the
initial attributes extended by exactly one deterministically derived
name per inserted (subgraph, candidate) unit, and none of those names
pre-existed — a pre-existing collision is never silently overwritten;
(2) a pre-existing attribute whose name is the derived logger name of a
reachable subgraph forces the run to raise rather than succeed; (3)
under the precondition that no derived-name attribute pre-exists, the
assertion branch is unreachable: the run never returns the assertion
error. -/
theorem c8_attr_collision (subgraphs : List SubgraphEntry)
    (qmaps : List (String → Option QConfig)) (attrs0 : List AttrName) :
    (∀ st', prepare_n_shadows_model subgraphs qmaps ⟨attrs0, [], []⟩ =
        Except.ok st' →
      st'.attrs = attrs0 ++ st'.inserts.map Insertion.attrName ∧
      ∀ ins ∈ st'.inserts, Insertion.attrName ins ∉ attrs0) ∧
    (∀ i sg g, subgraphs.get? i = some sg → hasNonNode sg.nodes = false →
      firstNode? sg.nodes = some g →
      getExampleInputs g.prevInput = ExampleRes.ok →
      AttrName.logger i 0 ∈ attrs0 →
      exceptOk (prepare_n_shadows_model subgraphs qmaps ⟨attrs0, [], []⟩) =
        false) ∧
    (attrs0 = [] →
      prepare_n_shadows_model subgraphs qmaps ⟨attrs0, [], []⟩ ≠
        Except.error PrepErr.assertionError) := by
  have hpart1 : ∀ st', prepare_n_shadows_model subgraphs qmaps ⟨attrs0, [], []⟩ =
      Except.ok st' →
      st'.attrs = attrs0 ++ st'.inserts.map Insertion.attrName ∧
      ∀ ins ∈ st'.inserts, Insertion.attrName ins ∉ attrs0 := by
    intro st' hrun
    unfold prepare_n_shadows_model at hrun
    obtain ⟨ha, hi, hni⟩ := prepareLoop_ok qmaps subgraphs 0 _ st' hrun
    constructor
    · rw [ha, hi]
      simp
    · intro ins hins
      rw [hi] at hins
      simp only [List.nil_append] at hins
      exact hni ins hins
  refine ⟨hpart1, ?_, ?_⟩
  · intro i sg g hget hnn hfirst hex hmem
    cases hrun : prepare_n_shadows_model subgraphs qmaps ⟨attrs0, [], []⟩ with
    | error e => rfl
    | ok st' =>
        exfalso
        obtain ⟨_, hni⟩ := hpart1 st' hrun
        unfold prepare_n_shadows_model at hrun
        obtain ⟨_, hi, _⟩ := prepareLoop_ok qmaps subgraphs 0 _ st' hrun
        have hfil := blocksFrom_filter qmaps subgraphs 0 i sg hget
        simp only [Nat.zero_add] at hfil
        have hblock : sgBlock qmaps i sg =
            Insertion.mk i 0 BranchKind.origLogger ::
              wrapperBlock i g.name qmaps 1 := by
          rw [sgBlock_eq_core hnn hfirst, sgBlockCore_ok hex]
        have hmemins : Insertion.mk i 0 BranchKind.origLogger ∈ st'.inserts := by
          have : Insertion.mk i 0 BranchKind.origLogger ∈
              st'.inserts.filter (fun ins => ins.subgraphIdx == i) := by
            rw [hi]
            simp only [List.nil_append]
            rw [hfil, hblock]
            exact List.mem_cons_self _ _
          exact List.mem_of_mem_filter this
        have := hni _ hmemins
        simp [Insertion.attrName] at this
        exact this hmem
  · intro h0
    rw [h0]
    refine prepareLoop_noassert qmaps subgraphs 0 ⟨[], [], []⟩ ?_
    intro a ha
    simp at ha

/-- Witness for `c8_attr_collision` on a concrete sweep run with no
pre-existing derived-name attributes. -/
theorem c8_witness :
    prepare_n_shadows_model [cSubgraph] cQmaps ⟨[], [], []⟩ ≠
      Except.error PrepErr.assertionError :=
  (c8_attr_collision [cSubgraph] cQmaps []).2.2 rfl

/-- C9: a subgraph whose first node's single upstream input node has no
cached example value is skipped: the loop appends only the diagnostic
message and continues with the remaining subgraphs from the same state
— nothing is inserted for the skipped subgraph and the construction is
not aborted.  The second conjunct specialises this to
`prepare_n_shadows_model` with the skipped subgraph first. -/
theorem c9_missing_example_skips (qmaps : List (String → Option QConfig))
    (k : Nat) (sg : SubgraphEntry) (post : List SubgraphEntry) (g : GNode)
    (st : PrepState)
    (hnn : hasNonNode sg.nodes = false)
    (hfirst : firstNode? sg.nodes = some g)
    (hex : g.prevInput = PrevInput.singleNode none) :
    prepareLoop qmaps k (sg :: post) st =
      prepareLoop qmaps (k + 1) post
        { st with diags := st.diags ++ [skipMsg g] } ∧
    prepare_n_shadows_model (sg :: post) qmaps st =
      prepareLoop qmaps 1 post { st with diags := st.diags ++ [skipMsg g] } := by
  have hexr : getExampleInputs g.prevInput = ExampleRes.noExample := by
    rw [hex]
    rfl
  have hstep : ∀ k', processSubgraph qmaps st k' sg =
      Except.ok { st with diags := st.diags ++ [skipMsg g] } := by
    intro k'
    unfold processSubgraph
    rw [if_neg (by simp [hnn])]
    split
    · rename_i hnone
      rw [hfirst] at hnone
      exact Option.noConfusion hnone
    · rename_i g' hsome
      rw [hfirst] at hsome
      injection hsome with hsome
      subst hsome
      rw [hexr]
  constructor
  · simp only [prepareLoop]
    rw [hstep k]
  · unfold prepare_n_shadows_model
    simp only [prepareLoop]
    rw [hstep 0]

/-- Witness for `c9_missing_example_skips`: a missing-example subgraph
followed by a normal one. -/
theorem c9_witness :
    hasNonNode c9Subgraph.nodes = false ∧
    firstNode? c9Subgraph.nodes = some c9GNode ∧
    c9GNode.prevInput = PrevInput.singleNode none ∧
    (prepareLoop cQmaps 0 (c9Subgraph :: [cSubgraph]) cStart =
      prepareLoop cQmaps 1 [cSubgraph]
        { cStart with diags := cStart.diags ++ [skipMsg c9GNode] } ∧
     prepare_n_shadows_model (c9Subgraph :: [cSubgraph]) cQmaps cStart =
      prepareLoop cQmaps 1 [cSubgraph]
        { cStart with diags := cStart.diags ++ [skipMsg c9GNode] }) :=
  ⟨rfl, rfl, rfl,
    c9_missing_example_skips cQmaps 0 c9Subgraph [cSubgraph] c9GNode cStart
      rfl rfl rfl⟩
